import Mathlib

/-!
# Verification of the mcpd daemon core

Shallow embedding of the mcpd source (tool aggregator & router, response
middleware pipeline, service supervisor) together with proofs that settle
the specification claims.  Strings are modelled as lists of characters
(`Str`), JS `Map`s as association lists keyed by `Str`, processes and
network reachability as an explicit `World` record, and code that throws
as `Except`-valued functions.
-/

namespace Mcpd

/-- Strings of the embedded program: lists of characters. -/
abbrev Str := List Char

/-- `hasSeg needle hay` holds when `needle` occurs contiguously inside `hay`
(the model of "the error message contains ..."). -/
def hasSeg (needle hay : Str) : Prop := ∃ a b, hay = a ++ needle ++ b

instance {ε α : Type} [DecidableEq ε] [DecidableEq α] : DecidableEq (Except ε α)
  | .error a, .error b =>
      decidable_of_iff (a = b) ⟨by rintro rfl; rfl, by intro h; injection h⟩
  | .error _, .ok _ => isFalse (by intro h; cases h)
  | .ok _, .error _ => isFalse (by intro h; cases h)
  | .ok a, .ok b =>
      decidable_of_iff (a = b) ⟨by rintro rfl; rfl, by intro h; injection h⟩

/-! ## Association lists: the model of a JS `Map` (insertion ordered). -/

/-- Lookup in an association list: first binding wins (JS `Map.get`). -/
def lookupA {α : Type} : List (Str × α) → Str → Option α
  | [], _ => none
  | (k, v) :: rest, key => if k = key then some v else lookupA rest key

/-- `Map.set`: replace the binding in place when the key is present,
otherwise append a new binding at the end. -/
def setA {α : Type} : List (Str × α) → Str → α → List (Str × α)
  | [], key, v => [(key, v)]
  | (k, w) :: rest, key, v =>
      if k = key then (key, v) :: rest else (k, w) :: setA rest key v

/-- `Map.delete`: remove the binding for a key. -/
def delA {α : Type} (m : List (Str × α)) (key : Str) : List (Str × α) :=
  m.filter (fun e => decide (e.1 ≠ key))

/-! ## Tool Aggregator & Router (src: aggregator, current revision with
per-service tool exclusion and longest-match routing). -/

/-- A backend tool as reported by `client.listTools()`: a name and an
optional description (other fields such as the input schema are carried
through unchanged by the aggregator and are not modelled). -/
structure Tool where
  name : Str
  description : Option Str
  deriving DecidableEq, Repr

/-- `NamespacedTool`: a tool augmented with its external name, a definite
description, and the internal `_service` / `_originalName` fields. -/
structure NamespacedTool where
  name : Str
  description : Str
  service : Str
  originalName : Str
  deriving DecidableEq, Repr

/-- The aggregator's state: `backends` models the insertion-ordered
`Map<string, BackendClient>` where each client is represented by the tool
list it reports, and `excludedTools` models the `Map<string, Set<string>>`
of per-service exclusions. -/
structure Aggregator where
  backends : List (Str × List Tool)
  excludedTools : List (Str × List Str)

/-- The registered backend names, in registration order. -/
def svcNames (agg : Aggregator) : List Str := agg.backends.map Prod.fst

/-- `this.backends.has(name)`. -/
def hasB (agg : Aggregator) (n : Str) : Bool := agg.backends.any (fun b => b.1 == n)

/-- The external name given to a tool of backend `s` with original name `t`:
`service + "_" + originalName` when more than one backend is registered,
else the original name (the `name:` computation inside `listAllTools`). -/
def extName (agg : Aggregator) (s t : Str) : Str :=
  if 1 < agg.backends.length then s ++ '_' :: t else t

/-- `listAllTools`: fan out to every backend (in registration order), drop
excluded tools, attach external name, definite description
(`tool.description ?? ""`) and the internal routing fields. -/
def listAllTools (agg : Aggregator) : List NamespacedTool :=
  agg.backends.flatMap (fun b =>
    let excl := lookupA agg.excludedTools b.1
    b.2.filterMap (fun t =>
      let isExcl := match excl with
        | some ex => decide (t.name ∈ ex)
        | none => false
      if isExcl then none
      else some { name := extName agg b.1 t.name,
                  description := t.description.getD [],
                  service := b.1,
                  originalName := t.name }))

/-- The ascending list of indices of `'_'` inside a name (the positions the
`indexOf("_", idx)` loop of `parseName` visits, left to right). -/
def underscoreIdxs (s : Str) : List Nat :=
  (List.range s.length).filter (fun i => s.getD i ' ' == '_')

/-- The `bestIdx` computation of `parseName`: visit every underscore
position in ascending order and remember the last (hence largest) position
whose left-hand slice is a registered backend name. -/
def bestMatch (agg : Aggregator) (s : Str) : Option Nat :=
  (underscoreIdxs s).foldl
    (fun best i => if hasB agg (s.take i) then some i else best) none

/-- Error message of `parseName` when no underscore-delimited service name
matches. -/
def invalidNameMsg (toolName : Str) : Str :=
  ("Invalid tool name: ").data ++ toolName ++ (" (no matching service prefix)").data

/-- `parseName`: with at most one registered backend route everything to
the sole backend (throwing "No backends registered" when there is none, or
when the sole backend's name is the empty string — the JS falsiness check
`if (!serviceName)`); with several backends, split at the longest
underscore position whose left-hand side names a registered backend. -/
def parseName (agg : Aggregator) (toolName : Str) : Except Str (Str × Str) :=
  if agg.backends.length ≤ 1 then
    match agg.backends with
    | [] => .error ("No backends registered").data
    | (serviceName, _) :: _ =>
        if serviceName = [] then .error ("No backends registered").data
        else .ok (serviceName, toolName)
  else
    match bestMatch agg toolName with
    | some bestIdx => .ok (toolName.take bestIdx, toolName.drop (bestIdx + 1))
    | none => .error (invalidNameMsg toolName)

/-! ### Characterising `bestMatch` -/

/-- `MatchAt agg u i`: position `i` of `u` is an underscore and the slice
left of it names a registered backend (one of the splits `parseName`
records). -/
def MatchAt (agg : Aggregator) (u : Str) (i : Nat) : Prop :=
  i < u.length ∧ u.getD i ' ' = '_' ∧ hasB agg (u.take i) = true

instance (agg : Aggregator) (u : Str) (i : Nat) : Decidable (MatchAt agg u i) := by
  unfold MatchAt; infer_instance

/-! ### Round-trip and injectivity of external naming -/

/-- The registered backend names are underscore-nesting-free: no registered
name is another registered name followed by an underscore and more
characters.  (Violated for example by registering both `a` and `a_b`.) -/
def NoNest (agg : Aggregator) : Prop :=
  ∀ s₁ ∈ svcNames agg, ∀ s₂ ∈ svcNames agg, s₁ ≠ s₂ →
    s₂.take (s₁.length + 1) ≠ s₁ ++ ['_']

instance (agg : Aggregator) : Decidable (NoNest agg) := by
  unfold NoNest; infer_instance

/-! ### Claim theorems about the aggregator -/

/-- The exclusion test applied by `listAllTools` for backend `svc`. -/
def isExcluded (agg : Aggregator) (svc toolName : Str) : Bool :=
  match lookupA agg.excludedTools svc with
  | some ex => decide (toolName ∈ ex)
  | none => false

/-- Concrete aggregator with backends `a` and `a_b` (the nesting that breaks
the naive round trip). -/
def aggC1x : Aggregator :=
  ⟨[(("a").data, [⟨("b_x").data, none⟩]), (("a_b").data, [⟨("x").data, none⟩])], []⟩

/-- Nesting-free two-backend aggregator used to witness the amended C1. -/
def aggPlain : Aggregator :=
  ⟨[(("a").data, [⟨("x").data, none⟩]),
    (("b").data, [⟨("y").data, some ("d").data⟩])], []⟩

/-- Aggregator with backends `a` and `a_b` and no tools, for the routing
scenarios of C2. -/
def aggAB : Aggregator := ⟨[(("a").data, []), (("a_b").data, [])], []⟩

/-- Single-backend aggregator whose tools have a present and an absent
description (counterexample data for C3). -/
def aggSerena : Aggregator :=
  ⟨[(("serena").data,
     [⟨("find_symbol").data, some ("Find a symbol").data⟩,
      ⟨("nodesc").data, none⟩])], []⟩

/-! ## JSON values (model of the host runtime's `JSON.parse` and
`JSON.stringify`, which the middleware helpers call).  Numbers are
modelled as integers (no fraction/exponent forms) and `\uXXXX` escapes are
not modelled; the embedded middlewares only rely on objects and strings. -/

inductive Json where
  | jnull
  | jbool (b : Bool)
  | jnum (n : Int)
  | jstr (s : Str)
  | jarr (xs : List Json)
  | jobj (fields : List (Str × Json))

/-- The whitespace accepted between JSON tokens (also the core of the
regex class `\s` used by `strip-json-keys`). -/
def isWsChar (c : Char) : Bool :=
  (c == ' ') || (c == '\t') || (c == '\n') || (c == '\r')

/-- Decoding of a backslash escape inside a JSON string literal. -/
def escChar (c : Char) : Option Char :=
  if c = '\x22' then some '\x22'
  else if c = '\\' then some '\\'
  else if c = '/' then some '/'
  else if c = 'n' then some '\n'
  else if c = 't' then some '\t'
  else if c = 'r' then some '\r'
  else if c = 'b' then some '\x08'
  else if c = 'f' then some '\x0c'
  else none

/-- Body of a JSON string literal after the opening quote: returns the
decoded characters and the input remaining after the closing quote. -/
def parseStrBody : Nat → Str → Option (Str × Str)
  | 0, _ => none
  | _, [] => none
  | fuel + 1, c :: rest =>
      if c = '\x22' then some ([], rest)
      else if c = '\\' then
        match rest with
        | [] => none
        | e :: rest2 =>
            match escChar e with
            | none => none
            | some d =>
                match parseStrBody fuel rest2 with
                | none => none
                | some (w, r) => some (d :: w, r)
      else
        match parseStrBody fuel rest with
        | none => none
        | some (w, r) => some (c :: w, r)

/-- Accumulate a run of decimal digits. -/
def digitsToNat (acc : Nat) : Str → Nat × Str
  | [] => (acc, [])
  | c :: rest =>
      if c.isDigit then digitsToNat (acc * 10 + (c.toNat - 48)) rest
      else (acc, c :: rest)

/-- An optionally signed integer literal. -/
def parseNum (s : Str) : Option (Int × Str) :=
  match s with
  | '-' :: rest =>
      match rest with
      | c :: _ =>
          if c.isDigit then
            let nr := digitsToNat 0 rest
            some (-(nr.1 : Int), nr.2)
          else none
      | [] => none
  | c :: _ =>
      if c.isDigit then
        let nr := digitsToNat 0 s
        some ((nr.1 : Int), nr.2)
      else none
  | [] => none

/-- Consume an expected literal tail such as `rue` after `t`. -/
def dropLit : Str → Str → Option Str
  | [], s => some s
  | _ :: _, [] => none
  | c :: lit, d :: s => if c = d then dropLit lit s else none

mutual

/-- A JSON value (fuel-indexed recursive-descent reading). -/
def parseVal : Nat → Str → Option (Json × Str)
  | 0, _ => none
  | fuel + 1, s₀ =>
      match s₀.dropWhile isWsChar with
      | [] => none
      | c :: rest =>
          if c = '\x22' then
            match parseStrBody (rest.length + 1) rest with
            | some (w, r) => some (.jstr w, r)
            | none => none
          else if c = '\x7b' then
            match rest.dropWhile isWsChar with
            | '\x7d' :: r2 => some (.jobj [], r2)
            | _ =>
                match parseMembers fuel rest with
                | some (fs, r) => some (.jobj fs, r)
                | none => none
          else if c = '[' then
            match rest.dropWhile isWsChar with
            | ']' :: r2 => some (.jarr [], r2)
            | _ =>
                match parseItems fuel rest with
                | some (xs, r) => some (.jarr xs, r)
                | none => none
          else if c = 't' then (dropLit ("rue").data rest).map (fun r => (.jbool true, r))
          else if c = 'f' then (dropLit ("alse").data rest).map (fun r => (.jbool false, r))
          else if c = 'n' then (dropLit ("ull").data rest).map (fun r => (.jnull, r))
          else (parseNum (c :: rest)).map (fun nr => (.jnum nr.1, nr.2))

/-- One or more `"key": value` members followed by `}`. -/
def parseMembers : Nat → Str → Option (List (Str × Json) × Str)
  | 0, _ => none
  | fuel + 1, s =>
      match s.dropWhile isWsChar with
      | '\x22' :: rest =>
          match parseStrBody (rest.length + 1) rest with
          | none => none
          | some (key, r1) =>
              match r1.dropWhile isWsChar with
              | ':' :: r2 =>
                  match parseVal fuel r2 with
                  | none => none
                  | some (v, r3) =>
                      match r3.dropWhile isWsChar with
                      | ',' :: r4 =>
                          match parseMembers fuel r4 with
                          | none => none
                          | some (fs, r5) => some ((key, v) :: fs, r5)
                      | '\x7d' :: r4 => some ([(key, v)], r4)
                      | _ => none
              | _ => none
      | _ => none

/-- One or more array items followed by `]`. -/
def parseItems : Nat → Str → Option (List Json × Str)
  | 0, _ => none
  | fuel + 1, s =>
      match parseVal fuel s with
      | none => none
      | some (v, r1) =>
          match r1.dropWhile isWsChar with
          | ',' :: r2 =>
              match parseItems fuel r2 with
              | none => none
              | some (xs, r3) => some (v :: xs, r3)
          | ']' :: r2 => some ([v], r2)
          | _ => none

end

/-- `JSON.parse`: parse a complete value and require only whitespace after
it; `none` models a thrown `SyntaxError`. -/
def parseJson (s : Str) : Option Json :=
  match parseVal (2 * s.length + 8) s with
  | some (v, r) => if r.dropWhile isWsChar = [] then some v else none
  | none => none

/-- Escaping of one character for JSON string output. -/
def escOut (c : Char) : Str :=
  if c = '\x22' then ['\\', '\x22']
  else if c = '\\' then ['\\', '\\']
  else if c = '\n' then ['\\', 'n']
  else if c = '\t' then ['\\', 't']
  else if c = '\r' then ['\\', 'r']
  else if c = '\x08' then ['\\', 'b']
  else if c = '\x0c' then ['\\', 'f']
  else [c]

/-- Join already-rendered pieces with a separator. -/
def sepList (sep : Str) : List Str → Str
  | [] => []
  | [x] => x
  | x :: xs => x ++ sep ++ sepList sep xs

/-- `JSON.stringify` (fuel-indexed over the nesting depth). -/
def stringifyF : Nat → Json → Str
  | _, .jnull => ("null").data
  | _, .jbool true => ("true").data
  | _, .jbool false => ("false").data
  | _, .jnum n => (toString n).data
  | _, .jstr s => '\x22' :: s.flatMap escOut ++ ['\x22']
  | 0, .jarr _ => []
  | 0, .jobj _ => []
  | fuel + 1, .jarr xs => '[' :: sepList [','] (xs.map (stringifyF fuel)) ++ [']']
  | fuel + 1, .jobj fs =>
      '\x7b' :: sepList [','] (fs.map (fun f =>
        '\x22' :: f.1.flatMap escOut ++ ['\x22', ':'] ++ stringifyF fuel f.2)) ++ ['\x7d']

mutual

/-- Node count of a JSON value (ample fuel for `stringifyF`). -/
def jsize : Json → Nat
  | .jnull => 1
  | .jbool _ => 1
  | .jnum _ => 1
  | .jstr _ => 1
  | .jarr xs => jsizeList xs + 1
  | .jobj fs => jsizeFields fs + 1

def jsizeList : List Json → Nat
  | [] => 0
  | x :: xs => jsize x + jsizeList xs

def jsizeFields : List (Str × Json) → Nat
  | [] => 0
  | f :: fs => jsize f.2 + jsizeFields fs

end

/-- `JSON.stringify` with fuel ample for the value's depth. -/
def stringify (v : Json) : Str := stringifyF (jsize v) v

/-! ## Middleware pipeline (src/middleware.ts, current revision). -/

/-- A content block of a `CallToolResult`: text, or some other block kind
(image/audio/resource) that every middleware passes through untouched. -/
inductive Block where
  | text (s : Str)
  | other (tag : Str)
  deriving DecidableEq, Repr

/-- A `CallToolResult`: `content?` is `none` when the result has no
`content` field (the `"content" in result` check). -/
structure ToolResult where
  content? : Option (List Block)
  deriving DecidableEq, Repr

/-- A middleware: a name and an optional `response` transform.  The
transform is `Except`-valued because a JS middleware body may throw. -/
structure McpMiddleware where
  name : Str
  response : Option (Str → ToolResult → Except Str ToolResult)

/-- Map over text blocks, leaving non-text blocks unchanged; the function
returns `none` ("null") to keep a block as is. -/
def mapTextBlocks (result : ToolResult) (fn : Str → Option Str) : ToolResult :=
  match result.content? with
  | none => result
  | some blocks =>
      ⟨some (blocks.map (fun b =>
        match b with
        | .text s =>
            match fn s with
            | none => .text s
            | some s' => .text s'
        | b => b))⟩

/-- Try to parse JSON text, apply a transform, pass through on failure. -/
def tryJsonTransform (text : Str) (fn : Json → Option Str) : Option Str :=
  match parseJson text with
  | none => none
  | some parsed => fn parsed

/-- A character of the regex class `\w`. -/
def isWordChar (c : Char) : Bool := c.isAlphanum || c == '_'

/-- After an opening quote: a nonempty run of word characters, a closing
quote, optional whitespace and a colon — the remainder of one match of the
regex `"(\w+)"\s*:`. -/
def matchKey (s : Str) : Option (Str × Str) :=
  let w := s.takeWhile isWordChar
  if w.isEmpty then none
  else
    match s.drop w.length with
    | '\x22' :: rest2 =>
        match rest2.dropWhile isWsChar with
        | ':' :: rest4 => some (w, rest4)
        | _ => none
    | _ => none

/-- `text.replace(/"(\w+)"\s*:/g, "$1:")`: scan left to right, rewriting
every match and continuing after it.  Fuel is the input length: each step
consumes at least one character, so the fuel never runs out. -/
def stripKeysF : Nat → Str → Str
  | 0, s => s
  | _ + 1, [] => []
  | fuel + 1, '\x22' :: rest =>
      match matchKey rest with
      | some (w, rest') => w ++ ':' :: stripKeysF fuel rest'
      | none => '\x22' :: stripKeysF fuel rest
  | fuel + 1, c :: rest => c :: stripKeysF fuel rest

def stripKeys (s : Str) : Str := stripKeysF s.length s

/-- The `strip-json-keys` middleware. -/
def stripJsonKeys : McpMiddleware :=
  { name := ("strip-json-keys").data,
    response := some (fun _ result =>
      .ok (mapTextBlocks result (fun text => some (stripKeys text)))) }

/-- The `strip-result-wrapper` middleware: if a text block parses to an
object with exactly one key `result`, replace the text by the unwrapped
value (strings as-is, anything else re-serialised). -/
def stripResultWrapper : McpMiddleware :=
  { name := ("strip-result-wrapper").data,
    response := some (fun _ result =>
      .ok (mapTextBlocks result (fun text =>
        tryJsonTransform text (fun parsed =>
          match parsed with
          | .jobj [(k, v)] =>
              if k = ("result").data then
                some (match v with
                  | .jstr str => str
                  | _ => stringify v)
              else none
          | _ => none)))) }

/-- `applyMiddleware`: fold the result through each present `response` in
declared order; an exception from a middleware propagates (there is no
try/catch around the loop). -/
def applyMiddleware : List McpMiddleware → Str → ToolResult → Except Str ToolResult
  | [], _, result => .ok result
  | mw :: rest, toolName, result =>
      match mw.response with
      | none => applyMiddleware rest toolName result
      | some f =>
          match f toolName result with
          | .ok r => applyMiddleware rest toolName r
          | .error e => .error e

/-- A middleware whose `response` throws, and a sample result. -/
def boom : McpMiddleware :=
  ⟨("boom").data, some (fun _ _ => .error (("middleware failure").data))⟩

def sampleResult : ToolResult := ⟨some [.text (("hello").data)]⟩

/-! ## Service Supervisor (src/service-manager.ts, current revision with
the persisted state file and the cross-instance reuse path).

The OS is modelled by an explicit `World`: which PIDs are alive, whether a
URL answers `2xx` to a one-shot probe (`isReachable`), the per-iteration
outcome of the readiness polling loop, and the PID the next spawn gets.
Time in the polling loop advances by `interval` per iteration (at least
1ms, since a fetch takes nonzero time); the config invariants require a
positive interval anyway.  The `onExit` callback (crash handling and
restart policies) is concurrent behaviour outside these claims and is not
modelled; `stop` suppresses it in the source by forcing `restart` to
`never` around the kill. -/

inductive Transport
  | sse
  | stdio
  deriving DecidableEq, Repr

inductive RestartPolicy
  | onFailure
  | always
  | never
  deriving DecidableEq, Repr

structure Readiness where
  check : Str
  url : Option Str
  timeout : Nat
  interval : Nat
  deriving DecidableEq, Repr

structure ServiceConfig where
  command : Str
  args : List Str
  transport : Transport
  url : Option Str
  readiness : Readiness
  restart : RestartPolicy
  deriving DecidableEq, Repr

inductive ServiceState
  | stopped
  | starting
  | ready
  | error
  deriving DecidableEq, Repr

/-- One entry of the persisted `.mcpd-state.json` file. -/
structure SavedInfo where
  state : ServiceState
  pid : Option Nat
  url : Option Str
  deriving DecidableEq, Repr

/-- The supervisor's state: the four in-memory maps of `ServiceManager`
(`services` keeps the spawned child's PID) plus `disk`, the contents of
the persisted state file. -/
structure SM where
  services : List (Str × Nat)
  states : List (Str × ServiceState)
  pids : List (Str × Nat)
  urls : List (Str × Str)
  disk : List (Str × SavedInfo)
  deriving DecidableEq, Repr

structure World where
  alive : List Nat
  probe : Str → Bool
  poll : Str → Nat → Bool
  freshPid : Nat

/-- `pidAlive(pid)`: `process.kill(pid, 0)` succeeds. -/
def pidAlive (w : World) (p : Nat) : Bool := decide (p ∈ w.alive)

/-- `getState`: the recorded state, defaulting to `stopped`. -/
def getState (sm : SM) (name : Str) : ServiceState :=
  (lookupA sm.states name).getD .stopped

/-- `saveState`'s snapshot: one entry per name known to `services` or
`states`, carrying the current state, tracked PID and URL. -/
def snapshot (sm : SM) : List (Str × SavedInfo) :=
  ((sm.services.map Prod.fst ++ sm.states.map Prod.fst).dedup).map
    (fun n => (n, ⟨getState sm n, lookupA sm.pids n, lookupA sm.urls n⟩))

/-- `saveState`: write the snapshot to the state file. -/
def saveState (sm : SM) : SM := { sm with disk := snapshot sm }

/-- `stop(name)`: a no-op unless `name` has an in-memory process entry;
otherwise kill the child (SIGTERM, escalating to SIGKILL — it is dead
afterwards either way), clear the in-memory entries, record `stopped`,
persist. -/
def stop (w : World) (sm : SM) (name : Str) : World × SM :=
  match lookupA sm.services name with
  | none => (w, sm)
  | some pid =>
      let w' : World := { w with alive := w.alive.filter (fun q => decide (q ≠ pid)) }
      let sm' : SM := saveState { sm with
        services := delA sm.services name,
        pids := delA sm.pids name,
        states := setA sm.states name .stopped }
      (w', sm')

/-- The polling loop of `waitForReady`: poll until the deadline, sleeping
`interval` between attempts.  Returns whether a poll succeeded, and the
clock value on return. -/
def waitLoop (poll : Nat → Bool) (deadline interval : Nat) (now i : Nat) :
    Bool × Nat :=
  if now < deadline then
    if poll i then (true, now)
    else waitLoop poll deadline interval (now + max interval 1) (i + 1)
  else (false, now)
termination_by deadline - now
decreasing_by
  have := Nat.le_max_right interval 1
  omega

/-- The readiness-timeout error message. -/
def timedOutMsg (name : Str) (t : Nat) : Str :=
  ("Service '").data ++ name ++ ("' readiness check timed out after ").data
    ++ (Nat.repr t).data ++ ("ms").data

/-- `waitForReady`: poll `readiness.url ?? url`; on deadline record
`error` and throw the timeout message. -/
def waitForReady (w : World) (sm : SM) (name : Str) (cfg : ServiceConfig) :
    SM × Except Str Unit :=
  match (match cfg.readiness.url with | some r => some r | none => cfg.url) with
  | none =>
      (sm, .error (("Service '").data ++ name ++ ("': no URL for readiness check").data))
  | some url =>
      match waitLoop (w.poll url) cfg.readiness.timeout cfg.readiness.interval 0 0 with
      | (true, _) => (sm, .ok ())
      | (false, _) =>
          ({ sm with states := setA sm.states name .error },
            .error (timedOutMsg name cfg.readiness.timeout))

/-- The spawn path of `start`: reject a duplicate, mark `starting`, spawn
the child, wait for readiness when `sse`+`http` (stopping the orphan,
recording `error` and persisting before rethrowing on failure), else mark
`ready`; persist. -/
def spawnPath (w0 : World) (sm0 : SM) (name : Str) (cfg : ServiceConfig) :
    World × SM × Except Str Unit :=
  if (lookupA sm0.services name).isSome then
    (w0, sm0, .error (("Service '").data ++ name ++ ("' is already running").data))
  else
    let sm1 : SM := { sm0 with states := setA sm0.states name .starting }
    let pid := w0.freshPid
    let w1 : World := { w0 with alive := pid :: w0.alive }
    let sm2 : SM := { sm1 with
      services := setA sm1.services name pid,
      pids := setA sm1.pids name pid }
    if cfg.transport = .sse ∧ cfg.readiness.check = ("http").data then
      match waitForReady w1 sm2 name cfg with
      | (sm3, .ok _) =>
          (w1, saveState { sm3 with states := setA sm3.states name .ready }, .ok ())
      | (sm3, .error e) =>
          let ws := stop w1 sm3 name
          (ws.1, saveState { ws.2 with states := setA ws.2.states name .error }, .error e)
    else
      (w1, saveState { sm2 with states := setA sm2.states name .ready }, .ok ())

/-- The reuse check of `start`: the persisted entry for `name` has a
(JS-truthy) PID that is alive, and the readiness URL answers the probe. -/
def adoptable (w : World) (sm : SM) (name : Str) (chk : Str) : Option Nat :=
  match lookupA sm.disk name with
  | none => none
  | some info =>
      match info.pid with
      | none => none
      | some p =>
          if p ≠ 0 ∧ pidAlive w p = true ∧ w.probe chk = true then some p else none

/-- `start(name, cfg)`: record the URL; for a reachable SSE service adopt
the persisted live PID (reuse path) or, lacking one, just mark `ready`
(externally started path); otherwise spawn. -/
def start (w : World) (sm0 : SM) (name : Str) (cfg : ServiceConfig) :
    World × SM × Except Str Unit :=
  let sm := match cfg.url with
    | some u => if u = [] then sm0 else { sm0 with urls := setA sm0.urls name u }
    | none => sm0
  match cfg.transport, cfg.url with
  | .sse, some u =>
      if u = [] then spawnPath w sm name cfg
      else
        let chk := cfg.readiness.url.getD u
        match adoptable w sm name chk with
        | some p =>
            (w, saveState { sm with
              pids := setA sm.pids name p,
              states := setA sm.states name .ready }, .ok ())
        | none =>
            if w.probe chk then
              (w, saveState { sm with states := setA sm.states name .ready }, .ok ())
            else spawnPath w sm name cfg
  | _, _ => spawnPath w sm name cfg

def nameW : Str := ("svc").data

def uW : Str := ("http://localhost:9000/").data

def cfgW : ServiceConfig :=
  ⟨("bun").data, [("run").data, ("server.ts").data], .sse, some uW,
   ⟨("http").data, none, 5000, 100⟩, .never⟩

def infoW : SavedInfo := ⟨.ready, some 4242, some uW⟩

def wW : World := ⟨[4242], fun _ => true, fun _ _ => false, 777⟩

def smW : SM := ⟨[], [], [], [], [(nameW, infoW)]⟩

/-- Empty supervisor state (a fresh instance with no state file). -/
def smExt : SM := ⟨[], [], [], [], []⟩

def wTim : World := ⟨[], fun _ => false, fun _ _ => false, 900⟩

def smRun : SM :=
  ⟨[(nameW, 555)], [(nameW, ServiceState.ready)], [(nameW, 555)],
   [(nameW, uW)], []⟩

def wRun : World := ⟨[555], fun _ => true, fun _ _ => false, 900⟩

/-! ## Theorems -/

theorem lookupA_setA_self {α : Type} (m : List (Str × α)) (k : Str) (v : α) :
    lookupA (setA m k v) k = some v := by
  induction m with
  | nil => simp [setA, lookupA]
  | cons e rest ih =>
      by_cases h : e.1 = k <;> simp [setA, lookupA, h, ih]

theorem lookupA_setA_ne {α : Type} (m : List (Str × α)) (k k' : Str) (v : α)
    (h : k ≠ k') : lookupA (setA m k v) k' = lookupA m k' := by
  induction m with
  | nil => simp [setA, lookupA, h]
  | cons e rest ih =>
      by_cases he : e.1 = k
      · simp [setA, lookupA, he, h, Ne.symm h]
      · by_cases he' : e.1 = k' <;> simp [setA, lookupA, he, he', ih, Ne.symm h]

theorem lookupA_delA_self {α : Type} (m : List (Str × α)) (k : Str) :
    lookupA (delA m k) k = none := by
  induction m with
  | nil => simp [delA, lookupA]
  | cons e rest ih =>
      by_cases h : e.1 = k
      · simpa [delA, List.filter_cons, h] using ih
      · simpa [delA, List.filter_cons, h, lookupA] using ih

theorem lookupA_delA_ne {α : Type} (m : List (Str × α)) (k k' : Str)
    (h : k ≠ k') : lookupA (delA m k) k' = lookupA m k' := by
  induction m with
  | nil => simp [delA, lookupA]
  | cons e rest ih =>
      by_cases he : e.1 = k
      · have hne : e.1 ≠ k' := by rw [he]; exact h
        simpa [delA, List.filter_cons, he, lookupA, hne, h, Ne.symm h] using ih
      · by_cases he' : e.1 = k'
        · simp [delA, List.filter_cons, he, lookupA, he', Ne.symm h]
        · simpa [delA, List.filter_cons, he, lookupA, he', Ne.symm h] using ih

theorem hasB_iff (agg : Aggregator) (n : Str) :
    hasB agg n = true ↔ n ∈ svcNames agg := by
  simp only [hasB, svcNames, List.any_eq_true, List.mem_map]
  constructor
  · rintro ⟨b, hb, he⟩
    exact ⟨b, hb, by simpa [eq_comm] using (beq_iff_eq.mp he)⟩
  · rintro ⟨b, hb, he⟩
    exact ⟨b, hb, beq_iff_eq.mpr he⟩

theorem mem_underscoreIdxs (u : Str) (i : Nat) :
    i ∈ underscoreIdxs u ↔ i < u.length ∧ u.getD i ' ' = '_' := by
  simp [underscoreIdxs, List.mem_filter, List.mem_range]

theorem find?_appendM {α : Type} (p : α → Bool) (l₁ l₂ : List α) :
    (l₁ ++ l₂).find? p =
      match l₁.find? p with
      | some x => some x
      | none => l₂.find? p := by
  induction l₁ with
  | nil => simp
  | cons a l ih =>
      by_cases h : p a = true
      · simp [List.find?_cons, h]
      · simp only [Bool.not_eq_true] at h
        simp [List.find?_cons, h, ih]

theorem foldl_lastMatch {α : Type} (p : α → Bool) (l : List α) (acc : Option α) :
    l.foldl (fun b i => if p i then some i else b) acc =
      match l.reverse.find? p with
      | some j => some j
      | none => acc := by
  induction l generalizing acc with
  | nil => simp
  | cons a l ih =>
      rw [List.foldl_cons, ih, List.reverse_cons, find?_appendM]
      by_cases h : p a = true
      · cases hf : l.reverse.find? p <;> simp [List.find?_cons, h, hf]
      · simp only [Bool.not_eq_true] at h
        cases hf : l.reverse.find? p <;> simp [List.find?_cons, h, hf]

theorem find?_of_max {p : Nat → Bool} :
    ∀ (l : List Nat), l.Pairwise (· > ·) → ∀ j ∈ l, p j = true →
      (∀ k ∈ l, p k = true → k ≤ j) → l.find? p = some j := by
  intro l
  induction l with
  | nil => intro _ j hj; cases hj
  | cons a l ih =>
      intro hpw j hj hpj hmax
      rcases List.pairwise_cons.mp hpw with ⟨hgt, hpw'⟩
      by_cases hpa : p a = true
      · have haj : a = j := by
          rcases List.mem_cons.mp hj with rfl | hj'
          · rfl
          · exact absurd (hgt j hj') (by
              have := hmax a (List.mem_cons_self a l) hpa
              omega)
        rw [List.find?_cons, hpa, haj]
      · have hj' : j ∈ l := by
          rcases List.mem_cons.mp hj with rfl | hj'
          · exact absurd hpj hpa
          · exact hj'
        rw [List.find?_cons, Bool.not_eq_true _ |>.mp hpa]
        exact ih hpw' j hj' hpj (fun k hk hpk => hmax k (List.mem_cons_of_mem a hk) hpk)

theorem bestMatch_eq_some (agg : Aggregator) (u : Str) (j : Nat)
    (hj : MatchAt agg u j) (hmax : ∀ k, MatchAt agg u k → k ≤ j) :
    bestMatch agg u = some j := by
  obtain ⟨hlt, hus, hreg⟩ := hj
  have hpw : (underscoreIdxs u).reverse.Pairwise (· > ·) := by
    rw [List.pairwise_reverse]
    exact (List.pairwise_lt_range u.length).filter _
  have hjmem : j ∈ (underscoreIdxs u).reverse := by
    rw [List.mem_reverse, mem_underscoreIdxs]; exact ⟨hlt, hus⟩
  have hfind := find?_of_max (p := fun i => hasB agg (u.take i))
    (underscoreIdxs u).reverse hpw j hjmem hreg
    (fun k hk hpk => by
      rw [List.mem_reverse, mem_underscoreIdxs] at hk
      exact hmax k ⟨hk.1, hk.2, hpk⟩)
  rw [bestMatch, foldl_lastMatch, hfind]

theorem bestMatch_eq_none (agg : Aggregator) (u : Str)
    (h : ∀ k, ¬ MatchAt agg u k) : bestMatch agg u = none := by
  have hfind : (underscoreIdxs u).reverse.find? (fun i => hasB agg (u.take i)) = none := by
    rw [List.find?_eq_none]
    intro k hk hpk
    rw [List.mem_reverse, mem_underscoreIdxs] at hk
    exact h k ⟨hk.1, hk.2, hpk⟩
  rw [bestMatch, foldl_lastMatch, hfind]

theorem noNest_apply {agg : Aggregator} (hnn : NoNest agg) (s₁ : Str)
    (h₁ : s₁ ∈ svcNames agg) (s₂ : Str) (h₂ : s₂ ∈ svcNames agg)
    (hne : s₁ ≠ s₂) (r : Str) : s₂ ≠ s₁ ++ '_' :: r := by
  intro heq
  apply hnn s₁ h₁ s₂ h₂ hne
  rw [heq, show s₁ ++ '_' :: r = (s₁ ++ ['_']) ++ r by simp,
    List.take_left' (by simp)]

theorem matchAt_length (agg : Aggregator) (s t : Str)
    (hs : s ∈ svcNames agg) : MatchAt agg (s ++ '_' :: t) s.length := by
  refine ⟨by simp, ?_, ?_⟩
  · rw [List.getD_eq_getElem?_getD, List.getElem?_append_right (Nat.le_refl _)]
    simp
  · rw [List.take_left, hasB_iff]; exact hs

theorem matchAt_eq_length (agg : Aggregator) (s t : Str)
    (hs : s ∈ svcNames agg) (hnn : NoNest agg) :
    ∀ k, MatchAt agg (s ++ '_' :: t) k → k = s.length := by
  intro k hk
  obtain ⟨hlt, hus, hreg⟩ := hk
  rw [hasB_iff] at hreg
  rcases Nat.lt_trichotomy k s.length with hlt' | heq | hgt
  · -- the matched slice is a proper underscore-cut of `s` itself
    exfalso
    have htake : (s ++ '_' :: t).take k = s.take k := by
      rw [List.take_append_eq_append_take, Nat.sub_eq_zero_of_le (Nat.le_of_lt hlt')]
      simp
    have hsk : s.getD k ' ' = '_' := by
      rw [List.getD_eq_getElem?_getD] at hus ⊢
      rwa [List.getElem?_append, if_pos hlt'] at hus
    have hsplit : s = s.take k ++ '_' :: s.drop (k + 1) := by
      conv_lhs => rw [← List.take_append_drop k s]
      congr 1
      rw [List.drop_eq_getElem_cons hlt']
      congr 1
      rw [List.getD_eq_getElem?_getD, List.getElem?_eq_getElem hlt'] at hsk
      simpa using hsk
    have hneq : s.take k ≠ s := by
      intro h
      have := congrArg List.length h
      rw [List.length_take] at this
      omega
    rw [htake] at hreg
    exact noNest_apply hnn (s.take k) hreg s hs hneq (s.drop (k + 1)) hsplit
  · exact heq
  · -- the matched slice strictly extends `s` past the separator
    exfalso
    have hk1 : s.length + 1 ≤ k := hgt
    have htake : (s ++ '_' :: t).take k = s ++ '_' :: t.take (k - s.length - 1) := by
      rw [List.take_append_eq_append_take,
        List.take_of_length_le (Nat.le_of_lt hgt)]
      congr 1
      have : k - s.length = (k - s.length - 1) + 1 := by omega
      rw [this, List.take_succ_cons]
      simp
    have hneq : s ≠ (s ++ '_' :: t).take k := by
      intro h
      have := congrArg List.length h
      rw [List.length_take] at this
      simp only [List.length_append, List.length_cons] at this
      omega
    exact noNest_apply hnn s hs ((s ++ '_' :: t).take k) hreg hneq
      (t.take (k - s.length - 1)) htake

/-- Round trip: with several backends and nesting-free names, `parseName`
recovers exactly the service and original tool name from the external
name. -/
theorem parseName_extName (agg : Aggregator) (s t : Str)
    (h2 : 2 ≤ agg.backends.length) (hs : s ∈ svcNames agg) (hnn : NoNest agg) :
    parseName agg (s ++ '_' :: t) = .ok (s, t) := by
  have hb : bestMatch agg (s ++ '_' :: t) = some s.length :=
    bestMatch_eq_some agg _ s.length (matchAt_length agg s t hs)
      (fun k hk => Nat.le_of_eq (matchAt_eq_length agg s t hs hnn k hk))
  have hdrop : (s ++ '_' :: t).drop (s.length + 1) = t := by
    have : s ++ '_' :: t = (s ++ ['_']) ++ t := by simp
    rw [this, List.drop_left' (by simp)]
  rw [parseName, if_neg (by omega), hb]
  simp [List.take_left, hdrop]

/-- Injectivity of `s ++ "_" ++ t` over registered services with
nesting-free names. -/
theorem extName_inj (agg : Aggregator) (s₁ t₁ s₂ t₂ : Str)
    (hs₁ : s₁ ∈ svcNames agg) (hs₂ : s₂ ∈ svcNames agg) (hnn : NoNest agg)
    (h : s₁ ++ '_' :: t₁ = s₂ ++ '_' :: t₂) : s₁ = s₂ ∧ t₁ = t₂ := by
  rcases Nat.lt_trichotomy s₁.length s₂.length with hlt | heq | hgt
  · exfalso
    have htake := congrArg (List.take s₂.length) h.symm
    rw [List.take_left] at htake
    have hcalc : (s₁ ++ '_' :: t₁).take s₂.length
        = s₁ ++ '_' :: t₁.take (s₂.length - s₁.length - 1) := by
      rw [List.take_append_eq_append_take,
        List.take_of_length_le (Nat.le_of_lt hlt)]
      congr 1
      have : s₂.length - s₁.length = (s₂.length - s₁.length - 1) + 1 := by omega
      rw [this, List.take_succ_cons]
      simp
    exact noNest_apply hnn s₁ hs₁ s₂ hs₂ (fun he => by rw [he] at hlt; omega) _ (htake.trans hcalc)
  · obtain ⟨he₁, he₂⟩ := List.append_inj h heq
    exact ⟨he₁, by injection he₂⟩
  · exfalso
    have htake := congrArg (List.take s₁.length) h
    rw [List.take_left] at htake
    have hcalc : (s₂ ++ '_' :: t₂).take s₁.length
        = s₂ ++ '_' :: t₂.take (s₁.length - s₂.length - 1) := by
      rw [List.take_append_eq_append_take,
        List.take_of_length_le (Nat.le_of_lt hgt)]
      congr 1
      have : s₁.length - s₂.length = (s₁.length - s₂.length - 1) + 1 := by omega
      rw [this, List.take_succ_cons]
      simp
    exact noNest_apply hnn s₂ hs₂ s₁ hs₁ (fun he => by rw [he] at hgt; omega) _ (htake.trans hcalc)

/-- Every listed tool's external name is `extName` of its service and
original name. -/
theorem listAllTools_name (agg : Aggregator) :
    ∀ nt ∈ listAllTools agg, nt.name = extName agg nt.service nt.originalName := by
  intro nt hnt
  simp only [listAllTools, List.mem_flatMap, List.mem_filterMap] at hnt
  obtain ⟨b, _, t, _, hmk⟩ := hnt
  split at hmk
  · cases hmk
  · cases hmk; rfl

theorem filterMap_if_eq_filter_map {α β : Type} (c : α → Bool) (f : α → β)
    (l : List α) :
    l.filterMap (fun t => if c t then none else some (f t)) =
      (l.filter (fun t => !c t)).map f := by
  induction l with
  | nil => rfl
  | cons a l ih =>
      by_cases h : c a = true <;> simp [List.filterMap_cons, List.filter_cons, h, ih]

/-- Counterexample to C1 as stated: with backends `a` and `a_b`, the tool
`b_x` of backend `a` gets external name `a_b_x`, which `parseName` resolves
to `(a_b, x)` rather than `(a, b_x)`; and the two distinct listed
`(service, tool)` pairs `(a, b_x)` and `(a_b, x)` share one external name,
so the map is not an injection. -/
theorem parseName_roundTrip_fails :
    2 ≤ aggC1x.backends.length ∧
    (listAllTools aggC1x).map (fun nt => (nt.service, nt.originalName, nt.name)) =
      [(("a").data, ("b_x").data, ("a_b_x").data),
       (("a_b").data, ("x").data, ("a_b_x").data)] ∧
    parseName aggC1x (extName aggC1x ("a").data ("b_x").data) =
      .ok (("a_b").data, ("x").data) ∧
    .ok (("a_b").data, ("x").data) ≠
      (.ok (("a").data, ("b_x").data) : Except Str (Str × Str)) ∧
    extName aggC1x ("a").data ("b_x").data = extName aggC1x ("a_b").data ("x").data ∧
    (("a").data, ("b_x").data) ≠ (("a_b").data, ("x").data) := by
  decide

/-- C1 (amended): for a multi-backend aggregator whose backend names are
underscore-nesting-free (no backend name extends another past an
underscore), every listed tool's external name is `service ++ "_" ++
original`, `parseName` inverts it exactly, and external naming is an
injection on `(service, tool)` pairs of registered services. -/
theorem extName_roundTrip_inj (agg : Aggregator)
    (h2 : 2 ≤ agg.backends.length) (hnn : NoNest agg) :
    (∀ nt ∈ listAllTools agg, nt.name = nt.service ++ '_' :: nt.originalName) ∧
    (∀ s t, s ∈ svcNames agg → parseName agg (s ++ '_' :: t) = .ok (s, t)) ∧
    (∀ s₁ t₁ s₂ t₂, s₁ ∈ svcNames agg → s₂ ∈ svcNames agg →
      s₁ ++ '_' :: t₁ = s₂ ++ '_' :: t₂ → s₁ = s₂ ∧ t₁ = t₂) := by
  refine ⟨fun nt hnt => ?_, fun s t hs => parseName_extName agg s t h2 hs hnn,
    fun s₁ t₁ s₂ t₂ h₁ h₂ h => extName_inj agg s₁ t₁ s₂ t₂ h₁ h₂ hnn h⟩
  rw [listAllTools_name agg nt hnt, extName, if_pos (by omega)]

theorem extName_roundTrip_inj_witness :
    2 ≤ aggPlain.backends.length ∧ NoNest aggPlain ∧
    parseName aggPlain (("a").data ++ '_' :: ("x").data) =
      .ok (("a").data, ("x").data) :=
  ⟨by decide, by decide,
    (extName_roundTrip_inj aggPlain (by decide) (by decide)).2.1
      (("a").data) (("x").data) (by decide)⟩

/-- C2 (confirmed): with several backends `parseName` returns the split at
the largest underscore position whose left-hand side names a registered
backend; when no underscore-delimited position matches it fails with a
message containing "no matching service prefix"; and on the concrete
backends `a`, `a_b` it resolves `a_b_tool` to `(a_b, tool)` and `a_x` to
`(a, x)`. -/
theorem parseName_longest :
    (∀ (agg : Aggregator) (u : Str) (m : Nat), 2 ≤ agg.backends.length →
      MatchAt agg u m → (∀ k, MatchAt agg u k → k ≤ m) →
      parseName agg u = .ok (u.take m, u.drop (m + 1))) ∧
    (∀ (agg : Aggregator) (u : Str), 2 ≤ agg.backends.length →
      (∀ k, ¬ MatchAt agg u k) → parseName agg u = .error (invalidNameMsg u)) ∧
    (∀ u : Str, hasSeg ("no matching service prefix").data (invalidNameMsg u)) ∧
    parseName aggAB (("a_b_tool").data) = .ok (("a_b").data, ("tool").data) ∧
    parseName aggAB (("a_x").data) = .ok (("a").data, ("x").data) := by
  refine ⟨?_, ?_, ?_, by decide, by decide⟩
  · intro agg u m h2 hm hmax
    rw [parseName, if_neg (by omega), bestMatch_eq_some agg u m hm hmax]
  · intro agg u h2 hnone
    rw [parseName, if_neg (by omega), bestMatch_eq_none agg u hnone]
  · intro u
    refine ⟨("Invalid tool name: ").data ++ u ++ (" (").data, (")").data, ?_⟩
    have hB : (" (no matching service prefix)").data =
        (" (").data ++ ("no matching service prefix").data ++ (")").data := by decide
    rw [invalidNameMsg, hB]
    simp [List.append_assoc]

theorem parseName_longest_witness :
    (2 ≤ aggAB.backends.length ∧ MatchAt aggAB (("a_b_tool").data) 3) ∧
    parseName aggAB (("a_b_tool").data) =
      .ok ((("a_b_tool").data).take 3, (("a_b_tool").data).drop 4) :=
  ⟨⟨by decide, by decide⟩,
    parseName_longest.1 aggAB (("a_b_tool").data) 3 (by decide) (by decide)
      (fun k hk =>
        (by decide : ∀ k < 8, MatchAt aggAB (("a_b_tool").data) k → k ≤ 3) k hk.1 hk)⟩

/-- Counterexample to C3 as stated: `listAllTools` copies the backend
description verbatim (empty string when absent); it does not produce
`"[service] " ++ description` nor `"[service]"`. -/
theorem listAllTools_no_service_label :
    (listAllTools aggSerena).map (fun nt => nt.description) =
      [("Find a symbol").data, ([] : Str)] ∧
    ("Find a symbol").data ≠ ("[serena] Find a symbol").data ∧
    ([] : Str) ≠ ("[serena]").data := by
  decide

/-- C3 (amended): every tool emitted by `listAllTools` carries a definite
(string, never undefined) description equal to the backend tool's
description when present and the empty string otherwise; precisely,
`listAllTools` maps each non-excluded backend tool to the namespaced tool
with that description. -/
theorem listAllTools_description (agg : Aggregator) :
    listAllTools agg = agg.backends.flatMap (fun b =>
      (b.2.filter (fun t => !isExcluded agg b.1 t.name)).map (fun t =>
        { name := extName agg b.1 t.name,
          description := t.description.getD [],
          service := b.1,
          originalName := t.name })) := by
  unfold listAllTools
  congr 1
  funext b
  exact filterMap_if_eq_filter_map (fun t => isExcluded agg b.1 t.name) _ b.2

/-- C10 (confirmed): with zero registered backends, `parseName` fails with
"No backends registered" on every input. -/
theorem parseName_empty (agg : Aggregator) (h : agg.backends = [])
    (toolName : Str) :
    parseName agg toolName = .error (("No backends registered").data) ∧
    hasSeg ("No backends registered").data (("No backends registered").data) :=
  ⟨by rw [parseName]; rw [h]; simp, ⟨[], [], by simp⟩⟩

theorem parseName_empty_witness :
    (Aggregator.mk [] []).backends = [] ∧
    parseName (Aggregator.mk [] []) (("anything").data) =
      .error (("No backends registered").data) :=
  ⟨rfl, (parseName_empty (Aggregator.mk [] []) rfl (("anything").data)).1⟩

theorem applyMiddleware_append (l₁ l₂ : List McpMiddleware) (t : Str)
    (r : ToolResult) :
    applyMiddleware (l₁ ++ l₂) t r =
      match applyMiddleware l₁ t r with
      | .ok v => applyMiddleware l₂ t v
      | .error e => .error e := by
  induction l₁ generalizing r with
  | nil => simp [applyMiddleware]
  | cons mw l ih =>
      rw [List.cons_append]
      cases hresp : mw.response with
      | none => simp [applyMiddleware, hresp, ih r]
      | some f =>
          cases hfr : f t r with
          | ok v => simp [applyMiddleware, hresp, hfr, ih v]
          | error e => simp [applyMiddleware, hresp, hfr]

/-- C8 (confirmed): `applyMiddleware` folds the result through each
middleware's `response` in declared pipeline order, skipping middlewares
without one; and the concrete text `{"result":{"name":"test"}}` piped
through `[strip-result-wrapper, strip-json-keys]` yields `{name:"test"}`. -/
theorem applyMiddleware_pipeline :
    (∀ (l₁ l₂ : List McpMiddleware) (t : Str) (r : ToolResult),
      applyMiddleware (l₁ ++ l₂) t r =
        match applyMiddleware l₁ t r with
        | .ok v => applyMiddleware l₂ t v
        | .error e => .error e) ∧
    (∀ (mw : McpMiddleware) (rest : List McpMiddleware) (t : Str) (r : ToolResult),
      applyMiddleware (mw :: rest) t r =
        match mw.response with
        | none => applyMiddleware rest t r
        | some f =>
            match f t r with
            | .ok v => applyMiddleware rest t v
            | .error e => .error e) ∧
    applyMiddleware [stripResultWrapper, stripJsonKeys] (("tool").data)
        ⟨some [.text (("\x7b\x22result\x22:\x7b\x22name\x22:\x22test\x22\x7d\x7d").data)]⟩ =
      .ok ⟨some [.text (("\x7bname:\x22test\x22\x7d").data)]⟩ :=
  ⟨applyMiddleware_append, fun _ _ _ _ => rfl, by decide⟩

/-- Counterexample to C9 as stated: when a middleware's `response` throws,
`applyMiddleware` does not return the untransformed result — the exception
propagates to the caller. -/
theorem applyMiddleware_error_not_swallowed :
    applyMiddleware [boom] (("t").data) sampleResult =
      .error (("middleware failure").data) ∧
    applyMiddleware [boom] (("t").data) sampleResult ≠ .ok sampleResult := by
  decide

/-- C9 (amended): an exception thrown by a middleware's `response`
propagates out of `applyMiddleware` unchanged (the pipeline neither
catches it nor substitutes a result, so content is never silently
dropped). -/
theorem applyMiddleware_propagates (l₁ l₂ : List McpMiddleware)
    (mw : McpMiddleware) (f : Str → ToolResult → Except Str ToolResult)
    (t : Str) (r v : ToolResult) (e : Str)
    (h₁ : applyMiddleware l₁ t r = .ok v) (hf : mw.response = some f)
    (he : f t v = .error e) :
    applyMiddleware (l₁ ++ mw :: l₂) t r = .error e := by
  rw [applyMiddleware_append, h₁]
  show applyMiddleware (mw :: l₂) t v = .error e
  simp [applyMiddleware, hf, he]

theorem applyMiddleware_propagates_witness :
    applyMiddleware [] (("t").data) sampleResult = .ok sampleResult ∧
    boom.response = some (fun _ _ => .error (("middleware failure").data)) ∧
    applyMiddleware ([] ++ boom :: [stripJsonKeys]) (("t").data) sampleResult =
      .error (("middleware failure").data) :=
  ⟨rfl, rfl,
    applyMiddleware_propagates [] [stripJsonKeys] boom
      (fun _ _ => .error (("middleware failure").data)) (("t").data)
      sampleResult sampleResult (("middleware failure").data) rfl rfl rfl⟩

/-! ### Supporting lemmas for the supervisor -/

theorem mem_keys_setA {α : Type} (m : List (Str × α)) (k : Str) (v : α) :
    k ∈ (setA m k v).map Prod.fst := by
  induction m with
  | nil => simp [setA]
  | cons e rest ih =>
      obtain ⟨k', v'⟩ := e
      by_cases h : k' = k
      · have hs : setA ((k', v') :: rest) k v = (k, v) :: rest := by
          simp [setA, h]
        rw [hs, List.map_cons]
        exact List.mem_cons_self _ _
      · have hs : setA ((k', v') :: rest) k v = (k', v') :: setA rest k v := by
          simp [setA, h]
        rw [hs, List.map_cons]
        exact List.mem_cons_of_mem _ ih

theorem lookupA_mapSelf {α : Type} (f : Str → α) (names : List Str) (n : Str)
    (h : n ∈ names) :
    lookupA (names.map (fun x => (x, f x))) n = some (f n) := by
  induction names with
  | nil => cases h
  | cons a ns ih =>
      by_cases ha : a = n
      · subst ha; simp [lookupA]
      · rcases List.mem_cons.mp h with rfl | hm
        · exact absurd rfl ha
        · simp [lookupA, ha, ih hm]

theorem lookupA_snapshot (sm : SM) (name : Str)
    (h : name ∈ sm.states.map Prod.fst) :
    lookupA (snapshot sm) name =
      some ⟨getState sm name, lookupA sm.pids name, lookupA sm.urls name⟩ := by
  apply lookupA_mapSelf
  rw [List.mem_dedup, List.mem_append]
  exact Or.inr h

theorem adoptable_none_of_probe_false (w : World) (sm : SM) (name chk : Str)
    (h : w.probe chk = false) : adoptable w sm name chk = none := by
  rw [adoptable]
  cases hdisk : lookupA sm.disk name with
  | none => rfl
  | some info =>
      cases hpid : info.pid with
      | none => simp [hpid]
      | some p => simp [hpid, h]

theorem waitLoop_never_fst (poll : Nat → Bool) (h : ∀ i, poll i = false)
    (deadline interval : Nat) :
    ∀ (fuel now i : Nat), deadline - now ≤ fuel →
      (waitLoop poll deadline interval now i).1 = false := by
  intro fuel
  induction fuel with
  | zero =>
      intro now i hf
      rw [waitLoop, if_neg (by omega)]
  | succ f ih =>
      intro now i hf
      by_cases hlt : now < deadline
      · rw [waitLoop, if_pos hlt, h i]
        simp only [Bool.false_eq_true, if_false]
        exact ih (now + max interval 1) (i + 1)
          (by have := Nat.le_max_right interval 1; omega)
      · rw [waitLoop, if_neg hlt]

theorem waitLoop_time_lt (poll : Nat → Bool) (deadline interval : Nat) :
    ∀ (fuel now i : Nat), deadline - now ≤ fuel →
      now < deadline + max interval 1 →
      (waitLoop poll deadline interval now i).2 < deadline + max interval 1 := by
  intro fuel
  induction fuel with
  | zero =>
      intro now i hf hn
      rw [waitLoop, if_neg (by omega)]
      exact hn
  | succ f ih =>
      intro now i hf hn
      by_cases hlt : now < deadline
      · rw [waitLoop, if_pos hlt]
        cases hp : poll i
        · simp only [Bool.false_eq_true, if_false]
          exact ih (now + max interval 1) (i + 1)
            (by have := Nat.le_max_right interval 1; omega)
            (by have := Nat.le_max_right interval 1; omega)
        · simpa using hlt.trans_le (Nat.le_add_right _ _)
      · rw [waitLoop, if_neg hlt]
        exact hn

theorem waitForReady_timeout (w : World) (sm : SM) (name : Str)
    (cfg : ServiceConfig) (chkUrl : Str)
    (hurl : (match cfg.readiness.url with | some r => some r | none => cfg.url) =
      some chkUrl)
    (hpoll : ∀ i, w.poll chkUrl i = false) :
    waitForReady w sm name cfg =
      ({ sm with states := setA sm.states name .error },
        .error (timedOutMsg name cfg.readiness.timeout)) := by
  rw [waitForReady, hurl]
  have hwl : (waitLoop (w.poll chkUrl) cfg.readiness.timeout
      cfg.readiness.interval 0 0).1 = false :=
    waitLoop_never_fst _ hpoll _ _ cfg.readiness.timeout 0 0 (by omega)
  rcases hwlv : waitLoop (w.poll chkUrl) cfg.readiness.timeout
      cfg.readiness.interval 0 0 with ⟨b, n⟩
  rw [hwlv] at hwl
  simp only at hwl
  subst hwl
  dsimp only
  rw [hwlv]

/-! ### Claim theorems about the supervisor -/

/-- C5 (confirmed): when the persisted state file has a live PID for an
SSE service and its readiness URL is reachable, a (fresh) supervisor's
`start` adopts the running backend: the world is untouched (nothing is
spawned), `start` succeeds, the state is `ready`, exactly the persisted
PID is recorded, and the adoption is persisted. -/
theorem start_reuses (w : World) (sm : SM) (name u : Str) (cfg : ServiceConfig)
    (info : SavedInfo) (p : Nat)
    (ht : cfg.transport = .sse) (hu : cfg.url = some u) (hne : u ≠ [])
    (hsaved : lookupA sm.disk name = some info) (hp : info.pid = some p)
    (hp0 : p ≠ 0) (halive : pidAlive w p = true)
    (hreach : w.probe (cfg.readiness.url.getD u) = true) :
    (start w sm name cfg).1 = w ∧
    (start w sm name cfg).2.2 = .ok () ∧
    getState (start w sm name cfg).2.1 name = .ready ∧
    lookupA (start w sm name cfg).2.1.pids name = some p ∧
    lookupA (start w sm name cfg).2.1.disk name = some ⟨.ready, some p, some u⟩ := by
  obtain ⟨cmd, args, tr, url, rdy, rst⟩ := cfg
  have ht' : tr = Transport.sse := ht
  have hu' : url = some u := hu
  subst ht'; subst hu'
  have hadopt : adoptable w { sm with urls := setA sm.urls name u } name
      (rdy.url.getD u) = some p := by
    simp [adoptable, hsaved, hp, hp0, halive, hreach]
  have hstart : start w sm name ⟨cmd, args, Transport.sse, some u, rdy, rst⟩ =
      (w, saveState { sm with
        urls := setA sm.urls name u,
        pids := setA sm.pids name p,
        states := setA sm.states name ServiceState.ready }, .ok ()) := by
    simp only [start, if_neg hne, hadopt]
  rw [hstart]
  refine ⟨rfl, rfl, ?_, ?_, ?_⟩
  · simp [getState, saveState, lookupA_setA_self]
  · simp [saveState, lookupA_setA_self]
  · rw [show (saveState { sm with
        urls := setA sm.urls name u,
        pids := setA sm.pids name p,
        states := setA sm.states name ServiceState.ready }).disk = snapshot { sm with
        urls := setA sm.urls name u,
        pids := setA sm.pids name p,
        states := setA sm.states name ServiceState.ready } from rfl]
    rw [lookupA_snapshot _ _ (mem_keys_setA _ _ _)]
    simp [getState, lookupA_setA_self]

theorem start_reuses_witness :
    cfgW.transport = .sse ∧ cfgW.url = some uW ∧
    pidAlive wW 4242 = true ∧ lookupA smW.disk nameW = some infoW ∧
    (start wW smW nameW cfgW).2.2 = .ok () ∧
    getState (start wW smW nameW cfgW).2.1 nameW = .ready ∧
    lookupA (start wW smW nameW cfgW).2.1.pids nameW = some 4242 :=
  have h := start_reuses wW smW nameW uW cfgW infoW 4242 rfl rfl
    (by decide) rfl rfl (by decide) (by decide) rfl
  ⟨rfl, rfl, by decide, rfl, h.2.1, h.2.2.1, h.2.2.2.1⟩

/-- Counterexample to C4 as stated: an SSE service is reachable and a
process spawned from exactly the configured command is alive (pid 4242 in
`wW`), yet `start` records no PID at all — the persisted entry carries
`pid: none`.  No port listing or command-hint filtering exists in the
code. -/
theorem start_external_noPidRecovery :
    wW.probe (cfgW.readiness.url.getD uW) = true ∧
    pidAlive wW 4242 = true ∧
    (start wW smExt nameW cfgW).2.2 = .ok () ∧
    getState (start wW smExt nameW cfgW).2.1 nameW = .ready ∧
    lookupA (start wW smExt nameW cfgW).2.1.pids nameW = none ∧
    lookupA (start wW smExt nameW cfgW).2.1.disk nameW =
      some ⟨.ready, none, some uW⟩ := by
  decide

/-- C4 (amended): for an SSE service whose readiness URL is reachable but
whose persisted state has no adoptable live PID, `start` marks the
service `ready` and persists, recording no PID (the PID map is left
unchanged; no PID recovery is attempted). -/
theorem start_external (w : World) (sm : SM) (name u : Str)
    (cfg : ServiceConfig)
    (ht : cfg.transport = .sse) (hu : cfg.url = some u) (hne : u ≠ [])
    (hno : adoptable w sm name (cfg.readiness.url.getD u) = none)
    (hreach : w.probe (cfg.readiness.url.getD u) = true) :
    (start w sm name cfg).1 = w ∧
    (start w sm name cfg).2.2 = .ok () ∧
    getState (start w sm name cfg).2.1 name = .ready ∧
    (start w sm name cfg).2.1.pids = sm.pids ∧
    lookupA (start w sm name cfg).2.1.disk name =
      some ⟨.ready, lookupA sm.pids name, some u⟩ := by
  obtain ⟨cmd, args, tr, url, rdy, rst⟩ := cfg
  have ht' : tr = Transport.sse := ht
  have hu' : url = some u := hu
  subst ht'; subst hu'
  have hno' : adoptable w { sm with urls := setA sm.urls name u } name
      (rdy.url.getD u) = none := hno
  have hstart : start w sm name ⟨cmd, args, Transport.sse, some u, rdy, rst⟩ =
      (w, saveState { sm with
        urls := setA sm.urls name u,
        states := setA sm.states name ServiceState.ready }, .ok ()) := by
    simp [start, if_neg hne, hno', hreach]
  rw [hstart]
  refine ⟨rfl, rfl, ?_, rfl, ?_⟩
  · simp [getState, saveState, lookupA_setA_self]
  · rw [show (saveState { sm with
        urls := setA sm.urls name u,
        states := setA sm.states name ServiceState.ready }).disk =
      snapshot { sm with
        urls := setA sm.urls name u,
        states := setA sm.states name ServiceState.ready } from rfl]
    rw [lookupA_snapshot _ _ (mem_keys_setA _ _ _)]
    simp [getState, lookupA_setA_self]

theorem start_external_witness :
    adoptable wW smExt nameW (cfgW.readiness.url.getD uW) = none ∧
    wW.probe (cfgW.readiness.url.getD uW) = true ∧
    (start wW smExt nameW cfgW).2.1.pids = smExt.pids ∧
    getState (start wW smExt nameW cfgW).2.1 nameW = .ready :=
  have h := start_external wW smExt nameW uW cfgW rfl rfl (by decide)
    (by decide) rfl
  ⟨by decide, rfl, h.2.2.2.1, h.2.2.1⟩

theorem spawnPath_timeout (w : World) (sm : SM) (name : Str)
    (cfg : ServiceConfig) (chkUrl : Str)
    (hsvc : lookupA sm.services name = none)
    (htr : cfg.transport = .sse) (hck : cfg.readiness.check = ("http").data)
    (hurl : (match cfg.readiness.url with | some r => some r | none => cfg.url) =
      some chkUrl)
    (hpoll : ∀ i, w.poll chkUrl i = false) :
    (spawnPath w sm name cfg).2.2 =
      .error (timedOutMsg name cfg.readiness.timeout) ∧
    getState (spawnPath w sm name cfg).2.1 name = .error := by
  have hcond : ¬ ((lookupA sm.services name).isSome = true) := by
    rw [hsvc]; simp
  rw [spawnPath, if_neg hcond, if_pos ⟨htr, hck⟩]
  dsimp only
  rw [waitForReady_timeout
    { alive := w.freshPid :: w.alive, probe := w.probe, poll := w.poll,
      freshPid := w.freshPid }
    { services := setA sm.services name w.freshPid,
      states := setA sm.states name ServiceState.starting,
      pids := setA sm.pids name w.freshPid,
      urls := sm.urls, disk := sm.disk }
    name cfg chkUrl hurl hpoll]
  dsimp only
  rw [stop]
  have hlp : lookupA (setA sm.services name w.freshPid) name = some w.freshPid :=
    lookupA_setA_self _ _ _
  rw [hlp]
  dsimp only
  exact ⟨rfl, by simp [getState, saveState, lookupA_setA_self]⟩

/-- C6 (confirmed): for an SSE service (not already running in-memory)
whose readiness URL never answers `2xx`, `start` fails with an error
containing "timed out", afterwards the recorded state is `error`, and the
polling loop gives up before `timeout + interval` elapses. -/
theorem start_timeout (w : World) (sm : SM) (name u : Str)
    (cfg : ServiceConfig)
    (ht : cfg.transport = .sse) (hu : cfg.url = some u) (hne : u ≠ [])
    (hck : cfg.readiness.check = ("http").data)
    (hsvc : lookupA sm.services name = none)
    (hpos : 0 < cfg.readiness.interval)
    (hprobe : w.probe (cfg.readiness.url.getD u) = false)
    (hpoll : ∀ i, w.poll (cfg.readiness.url.getD u) i = false) :
    (start w sm name cfg).2.2 =
      .error (timedOutMsg name cfg.readiness.timeout) ∧
    hasSeg ("timed out").data (timedOutMsg name cfg.readiness.timeout) ∧
    getState (start w sm name cfg).2.1 name = .error ∧
    (waitLoop (w.poll (cfg.readiness.url.getD u)) cfg.readiness.timeout
        cfg.readiness.interval 0 0).2 <
      cfg.readiness.timeout + cfg.readiness.interval := by
  obtain ⟨cmd, args, tr, url, rdy, rst⟩ := cfg
  have ht' : tr = Transport.sse := ht
  have hu' : url = some u := hu
  subst ht'; subst hu'
  have hno : adoptable w { sm with urls := setA sm.urls name u } name
      (rdy.url.getD u) = none :=
    adoptable_none_of_probe_false _ _ _ _ hprobe
  have hstart : start w sm name ⟨cmd, args, Transport.sse, some u, rdy, rst⟩ =
      spawnPath w { sm with urls := setA sm.urls name u } name
        ⟨cmd, args, Transport.sse, some u, rdy, rst⟩ := by
    simp [start, if_neg hne, hno, hprobe]
  have hurl : (match rdy.url with
      | some r => some r
      | none => (some u : Option Str)) = some (rdy.url.getD u) := by
    cases rdy.url <;> rfl
  have hsp := spawnPath_timeout w { sm with urls := setA sm.urls name u }
    name ⟨cmd, args, Transport.sse, some u, rdy, rst⟩ (rdy.url.getD u)
    hsvc rfl hck hurl hpoll
  rw [hstart]
  refine ⟨hsp.1, ?_, hsp.2, ?_⟩
  · refine ⟨("Service '").data ++ name ++ ("' readiness check ").data,
      (" after ").data ++ (Nat.repr rdy.timeout).data ++ ("ms").data, ?_⟩
    have hmid : ("' readiness check timed out after ").data =
        ("' readiness check ").data ++ ("timed out").data ++ (" after ").data := by
      decide
    rw [timedOutMsg, hmid]
    simp [List.append_assoc]
  · have hb := waitLoop_time_lt (w.poll (rdy.url.getD u)) rdy.timeout
      rdy.interval rdy.timeout 0 0 (by omega)
      (by have := Nat.le_max_right rdy.interval 1; omega)
    rwa [Nat.max_eq_left hpos] at hb

theorem start_timeout_witness :
    cfgW.transport = .sse ∧ lookupA smExt.services nameW = none ∧
    0 < cfgW.readiness.interval ∧
    (start wTim smExt nameW cfgW).2.2 =
      .error (timedOutMsg nameW cfgW.readiness.timeout) ∧
    getState (start wTim smExt nameW cfgW).2.1 nameW = .error :=
  have h := start_timeout wTim smExt nameW uW cfgW rfl rfl (by decide) rfl
    rfl (by decide) rfl (fun _ => rfl)
  ⟨rfl, rfl, by decide, h.1, h.2.2.1⟩

/-- Counterexample to C7 as stated: for a service adopted through the
reuse path (`start` succeeded, PID 4242 recorded), `stop` is a no-op —
there is no in-memory process entry, so the state stays `ready`, the PID
stays recorded, and the process stays alive. -/
theorem stop_adopted_noop :
    (start wW smW nameW cfgW).2.2 = .ok () ∧
    lookupA (start wW smW nameW cfgW).2.1.pids nameW = some 4242 ∧
    (stop (start wW smW nameW cfgW).1 (start wW smW nameW cfgW).2.1 nameW).2 =
      (start wW smW nameW cfgW).2.1 ∧
    getState (stop (start wW smW nameW cfgW).1
      (start wW smW nameW cfgW).2.1 nameW).2 nameW = .ready ∧
    lookupA (stop (start wW smW nameW cfgW).1
      (start wW smW nameW cfgW).2.1 nameW).2.pids nameW = some 4242 ∧
    pidAlive (stop (start wW smW nameW cfgW).1
      (start wW smW nameW cfgW).2.1 nameW).1 4242 = true := by
  decide

/-- C7 (amended): after `stop(name)` on a service with an in-memory
process entry (one that `start` spawned), the recorded state is `stopped`,
no PID remains recorded, the child PID is no longer alive and the stop is
persisted; for a name without an in-memory entry (in particular a service
adopted via the reuse path) `stop` is a no-op. -/
theorem stop_clears :
    (∀ (w : World) (sm : SM) (name : Str) (pid : Nat),
      lookupA sm.services name = some pid →
      getState (stop w sm name).2 name = .stopped ∧
      lookupA (stop w sm name).2.pids name = none ∧
      pidAlive (stop w sm name).1 pid = false ∧
      lookupA (stop w sm name).2.disk name =
        some ⟨.stopped, none, lookupA sm.urls name⟩) ∧
    (∀ (w : World) (sm : SM) (name : Str),
      lookupA sm.services name = none → stop w sm name = (w, sm)) := by
  constructor
  · intro w sm name pid h
    rw [stop, h]
    dsimp only
    refine ⟨?_, ?_, ?_, ?_⟩
    · simp [getState, saveState, lookupA_setA_self]
    · simp [saveState, lookupA_delA_self]
    · simp [pidAlive, List.mem_filter]
    · rw [show (saveState { sm with
          services := delA sm.services name,
          pids := delA sm.pids name,
          states := setA sm.states name ServiceState.stopped }).disk =
        snapshot { sm with
          services := delA sm.services name,
          pids := delA sm.pids name,
          states := setA sm.states name ServiceState.stopped } from rfl]
      rw [lookupA_snapshot _ _ (mem_keys_setA _ _ _)]
      simp [getState, lookupA_setA_self, lookupA_delA_self]
  · intro w sm name h
    rw [stop, h]

theorem stop_clears_witness :
    lookupA smRun.services nameW = some 555 ∧
    getState (stop wRun smRun nameW).2 nameW = .stopped ∧
    lookupA (stop wRun smRun nameW).2.pids nameW = none ∧
    pidAlive (stop wRun smRun nameW).1 555 = false :=
  have h := stop_clears.1 wRun smRun nameW 555 (by decide)
  ⟨by decide, h.1, h.2.1, h.2.2.1⟩

end Mcpd

